import Mathlib

/-!
Shallow embedding of the k8s-causal-memory store core
(src/storage/ingest.py, src/storage/query.py, src/storage/api.py).

Timestamps are ISO-8601 strings in the source, used only through
order-preserving comparison and fixed-offset arithmetic
(datetime(ts, '-300 seconds')); they are modelled as integers.
SQL result ordering (ORDER BY timestamp DESC / ASC) is modelled by a
deterministic comparison sort on the key.
-/

namespace KCM

/-- A row of the events table (schema fields as inserted by
ingest.py _insert_event; payload is stored as its JSON text). -/
structure Event where
  id : String
  timestamp : Int
  event_type : String
  pattern_id : String
  pod_name : String
  «namespace» : String
  node_name : String
  pod_uid : String
  payload : String
  deriving DecidableEq

/-- A row of the snapshots table (ingest.py _insert_snapshot). -/
structure Snapshot where
  id : String
  timestamp : Int
  object_kind : String
  object_name : String
  «namespace» : String
  trigger_event : String
  state : String
  deriving DecidableEq

/-- A row of the causal_edges table (ingest.py _build_edges). -/
structure CausalEdge where
  id : String
  cause_event_id : String
  effect_event_id : String
  pattern_id : String
  confidence : Rat
  edge_type : String
  deriving DecidableEq

/-- The observable state of the three append-only tables. -/
structure Store where
  events : List Event
  snapshots : List Snapshot
  causal_edges : List CausalEdge
  deriving DecidableEq

def emptyStore : Store := ⟨[], [], []⟩

/-! SQL ORDER BY on an integer key, descending and ascending. -/

def sortDescBy (key : α → Int) (l : List α) : List α :=
  List.insertionSort (fun a b => key b ≤ key a) l

def sortAscBy (key : α → Int) (l : List α) : List α :=
  List.insertionSort (fun a b => key a ≤ key b) l

theorem mem_sortDescBy {key : α → Int} {l : List α} {a : α} :
    a ∈ sortDescBy key l ↔ a ∈ l := by
  simp [sortDescBy, List.mem_insertionSort]

theorem sortDescBy_sorted (key : α → Int) (l : List α) :
    (sortDescBy key l).Pairwise (fun a b => key b ≤ key a) := by
  haveI : IsTotal α (fun a b => key b ≤ key a) := ⟨fun a b => le_total (key b) (key a)⟩
  haveI : IsTrans α (fun a b => key b ≤ key a) :=
    ⟨fun a b c hab hbc => le_trans hbc hab⟩
  exact List.sorted_insertionSort _ l

theorem sortDescBy_head_max {key : α → Int} {l : List α} {a : α}
    (h : (sortDescBy key l).head? = some a) : a ∈ l ∧ ∀ b ∈ l, key b ≤ key a := by
  rcases List.head?_eq_some_iff.mp h with ⟨t, ht⟩
  have hmem : a ∈ l := mem_sortDescBy.mp (ht ▸ List.mem_cons_self a t)
  refine ⟨hmem, fun b hb => ?_⟩
  have hb' : b ∈ sortDescBy key l := mem_sortDescBy.mpr hb
  rw [ht] at hb'
  rcases List.mem_cons.mp hb' with hba | hbt
  · exact le_of_eq (congrArg key hba)
  · have hs := sortDescBy_sorted key l
    rw [ht] at hs
    exact (List.pairwise_cons.mp hs).1 b hbt

theorem sortDescBy_head_none {key : α → Int} {l : List α} :
    (sortDescBy key l).head? = none ↔ l = [] := by
  rw [List.head?_eq_none_iff]
  constructor
  · intro h
    have p : List.Perm (sortDescBy key l) l := List.perm_insertionSort _ l
    rw [h] at p
    exact p.symm.eq_nil
  · intro h; subst h; rfl

theorem sortDescBy_take_max {key : α → Int} {l : List α} {n : Nat} :
    ∀ a ∈ (sortDescBy key l).take n, ∀ b ∈ (sortDescBy key l).drop n, key b ≤ key a := by
  have hs := sortDescBy_sorted key l
  rw [← List.take_append_drop n (sortDescBy key l)] at hs
  exact fun a ha b hb => (List.pairwise_append.mp hs).2.2 a ha b hb

/-! Insert-if-absent store operations (INSERT OR IGNORE keyed by id for
events and snapshots; plain INSERT with the IntegrityError swallowed for
causal_edges). -/

def hasEventId (st : Store) (i : String) : Bool :=
  st.events.any (fun x => x.id == i)

def insert_event (st : Store) (e : Event) : Store :=
  if hasEventId st e.id then st else { st with events := st.events ++ [e] }

def hasSnapshotId (st : Store) (i : String) : Bool :=
  st.snapshots.any (fun x => x.id == i)

def insert_snapshot (st : Store) (s : Snapshot) : Store :=
  if hasSnapshotId st s.id then st else { st with snapshots := st.snapshots ++ [s] }

def hasEdgeId (st : Store) (i : String) : Bool :=
  st.causal_edges.any (fun x => x.id == i)

def insert_edge (st : Store) (ed : CausalEdge) : Store :=
  if hasEdgeId st ed.id then st else { st with causal_edges := st.causal_edges ++ [ed] }

/-! The causal linker (_build_edges). -/

/-- Edge identifier derived from the (cause, effect) pair. -/
def edgeId (c e : Event) : String := c.id ++ "->" ++ e.id

def mkEdge (c e : Event) (conf : Rat) : CausalEdge :=
  ⟨edgeId c e, c.id, e.id, "P001", conf, "direct"⟩

/-- WHERE clause of the memory-pressure rule (trigger: OOMKill). -/
def mpPred (e c : Event) : Bool :=
  c.event_type == "NodeMemoryPressure" && c.node_name == e.node_name &&
  decide (c.timestamp ≤ e.timestamp) && decide (e.timestamp - 300 ≤ c.timestamp)

/-- SELECT of the memory-pressure rule: ORDER BY timestamp DESC LIMIT 3. -/
def memCauses (events : List Event) (e : Event) : List Event :=
  (sortDescBy (fun c => c.timestamp) (events.filter (mpPred e))).take 3

/-- WHERE clause of the OOM-evidence rule (trigger: OOMKillEvidence). -/
def oomPred (e c : Event) : Bool :=
  c.event_type == "OOMKill" && c.pod_name == e.pod_name &&
  c.«namespace» == e.«namespace» &&
  decide (c.timestamp ≤ e.timestamp) && decide (e.timestamp - 90 ≤ c.timestamp)

/-- SELECT of the OOM-evidence rule: ORDER BY timestamp DESC LIMIT 1. -/
def oomCause (events : List Event) (e : Event) : Option Event :=
  (sortDescBy (fun c => c.timestamp) (events.filter (oomPred e))).head?

/-- The per-row loop of the memory-pressure rule: INSERT each edge,
swallowing the IntegrityError on a duplicate edge id. -/
def insertEdges : Store → List Event → Event → Rat → Store
  | st, [], _, _ => st
  | st, c :: rest, e, conf => insertEdges (insert_edge st (mkEdge c e conf)) rest e conf

/-- The SQL literal 0.9, as a rational. mkRat is used rather than
division because it evaluates. -/
def conf09 : Rat := mkRat 9 10

/-- The SQL literal 1.0, as a rational. -/
def conf10 : Rat := mkRat 1 1

/-- First if-block of _build_edges (the memory-pressure rule). -/
def build_edges_mp (st : Store) (e : Event) : Store :=
  if e.event_type == "OOMKill"
    then insertEdges st (memCauses st.events e) e conf09 else st

/-- Both if-blocks of _build_edges, run in sequence on the store. -/
def build_edges (st : Store) (e : Event) : Store :=
  if e.event_type == "OOMKillEvidence" then
    match oomCause (build_edges_mp st e).events e with
    | some c => insert_edge (build_edges_mp st e) (mkEdge c e conf10)
    | none => build_edges_mp st e
  else build_edges_mp st e

/-! The ingestion pipeline (ingest_events). A line of the input stream is
blank, fails JSON parsing, or parses to a JSON object whose fields may be
absent (raw records). -/

structure RawEvent where
  id : Option String
  timestamp : Option Int
  event_type : Option String
  pattern_id : Option String
  pod_name : Option String
  «namespace» : Option String
  node_name : Option String
  pod_uid : Option String
  payload : Option String
  deriving DecidableEq

inductive Line where
  | blank
  | malformed
  | event (r : RawEvent)
  deriving DecidableEq

/-- Event built from a raw record once the required keys are present,
with the .get defaults of _insert_event. -/
def toEvent (i : String) (t : Int) (ty : String) (r : RawEvent) : Event :=
  ⟨i, t, ty, r.pattern_id.getD "", r.pod_name.getD "", r.«namespace».getD "",
   r.node_name.getD "", r.pod_uid.getD "", r.payload.getD "\x7b\x7d"⟩

/-- Model of _insert_event on a parsed JSON object: a missing required key (id,
timestamp, event_type) raises KeyError, modelled as Except.error. -/
def insert_event_raw (st : Store) (r : RawEvent) : Except Unit (Store × Event) :=
  match r.id, r.timestamp, r.event_type with
  | some i, some t, some ty =>
      let e := toEvent i t ty r
      .ok (insert_event st e, e)
  | _, _, _ => .error ()

/-- One iteration of the ingest_events loop body. Blank lines are skipped;
json.JSONDecodeError and sqlite3.IntegrityError are caught (record skipped);
a KeyError from a missing required field is not caught and propagates. The
Bool reports whether the per-file counter n was incremented. -/
def processLine (st : Store) (l : Line) : Except Unit (Store × Bool) :=
  match l with
  | .blank => .ok (st, false)
  | .malformed => .ok (st, false)
  | .event r =>
    match insert_event_raw st r with
    | .error e => .error e
    | .ok (st1, ev) => .ok (build_edges st1 ev, true)

/-- ingest_events over the lines of the input file; returns the final
store and the count of ingested records, or the uncaught exception. -/
def ingest_events (st : Store) (lines : List Line) : Except Unit (Store × Nat) :=
  match lines with
  | [] => .ok (st, 0)
  | l :: rest =>
    match processLine st l with
    | .error e => .error e
    | .ok (st1, counted) =>
      match ingest_events st1 rest with
      | .error e => .error e
      | .ok (st2, n) => .ok (st2, (if counted then 1 else 0) + n)

/-- Batch ingestion of a single complete event record: _insert_event
followed immediately by _build_edges on the same parsed record. -/
def ingestEventRecord (st : Store) (e : Event) : Store :=
  build_edges (insert_event st e) e

/-- Raw record carrying exactly the fields of a complete event. -/
def rawOf (e : Event) : RawEvent :=
  ⟨some e.id, some e.timestamp, some e.event_type, some e.pattern_id,
   some e.pod_name, some e.«namespace», some e.node_name, some e.pod_uid,
   some e.payload⟩

/-! Tail mode (watch_and_ingest): per cycle, f.seek(epos); lines =
f.readlines(); epos = f.tell(). File content is a character list; the
tracked offset is a character position. -/

/-- Python readlines: chunks of the stream split after each newline; a
final chunk with no terminating newline is returned as well. -/
def readlinesAux (cur : List Char) : List Char → List (List Char)
  | [] => if cur.isEmpty then [] else [cur.reverse]
  | c :: rest =>
      if c = '\n' then (cur.reverse ++ ['\n']) :: readlinesAux [] rest
      else readlinesAux (c :: cur) rest

def readlines (s : List Char) : List (List Char) := readlinesAux [] s

/-- One polling cycle's read of the events file: the lines handed to the
parser loop and the new tracked offset (f.tell() after readlines, i.e.
end of file). -/
def watch_cycle_read (content : List Char) (pos : Nat) : List (List Char) × Nat :=
  (readlines (content.drop pos), content.length)

/-! Query engine (query.py, and the same SQL in api.py). -/

/-- WHERE clause of Q3 (query_state_at): object match, namespace equal to
the requested one or empty (wildcard), timestamp at or before T. -/
def snapMatches (kind name ns : String) (T : Int) (s : Snapshot) : Bool :=
  s.object_kind == kind && s.object_name == name &&
  (s.«namespace» == ns || s.«namespace» == "") && decide (s.timestamp ≤ T)

/-- Q3: ORDER BY timestamp DESC LIMIT 1 over the matching snapshots;
none models the "not found" report. -/
def query_state_at (snaps : List Snapshot) (kind name ns : String) (T : Int) :
    Option Snapshot :=
  (sortDescBy (fun s => s.timestamp) (snaps.filter (snapMatches kind name ns T))).head?

/-- WHERE clause of the Q1 anchor query: pod identity and the significant
event types. -/
def anchorPred (pod ns : String) (e : Event) : Bool :=
  e.pod_name == pod && e.«namespace» == ns &&
  (e.event_type == "OOMKill" || e.event_type == "CrashLoopBackOff" ||
   e.event_type == "ContainerTerminated")

/-- Q1 anchor resolution when no explicit event id is given: ORDER BY
timestamp DESC LIMIT 1; none models the "no events found" report. -/
def query_causal_chain_anchor (events : List Event) (pod ns : String) : Option Event :=
  (sortDescBy (fun e => e.timestamp) (events.filter (anchorPred pod ns))).head?

/-- A row of the _walk_chain causes query: an event joined with its
edge's confidence and edge_type. -/
structure ChainRow where
  event : Event
  confidence : Rat
  edge_type : String
  deriving DecidableEq

/-- The causes query of _walk_chain: events JOIN causal_edges ON
id = cause_event_id WHERE effect_event_id = eid ORDER BY timestamp ASC. -/
def causesOf (st : Store) (eid : String) : List ChainRow :=
  sortAscBy (fun r => r.event.timestamp)
    ((st.causal_edges.filter (fun ce => ce.effect_event_id == eid)).flatMap
      (fun ce => (st.events.filter (fun ev => ev.id == ce.cause_event_id)).map
        (fun ev => ⟨ev, ce.confidence, ce.edge_type⟩)))

/-- A node of the tree returned by _walk_chain (the dict with the event's
fields, confidence, edge_type and the children list). -/
inductive ChainNode where
  | node (event : Event) (confidence : Rat) (edge_type : String)
      (children : List ChainNode)

/-- Model of _walk_chain: at depth ≥ max_depth return no causes, otherwise fetch
the causes of the node and recurse on each at depth + 1. -/
def walk_chain (st : Store) (event : Event) (depth max_depth : Nat) : List ChainNode :=
  if h : depth ≥ max_depth then []
  else (causesOf st event.id).map
    (fun r => ChainNode.node r.event r.confidence r.edge_type
      (walk_chain st r.event (depth + 1) max_depth))
termination_by max_depth - depth
decreasing_by omega

/-- Nesting depth of a chain forest: number of cause levels. -/
def chainDepth : List ChainNode → Nat
  | [] => 0
  | ChainNode.node _ _ _ cs :: rest => max (1 + chainDepth cs) (chainDepth rest)

/-- The documented edge-direction invariant: every stored edge's cause
event has timestamp at most its effect event's timestamp. -/
def edgeInvariant (st : Store) : Prop :=
  ∀ ed ∈ st.causal_edges, ∀ c ∈ st.events, ∀ f ∈ st.events,
    c.id = ed.cause_event_id → f.id = ed.effect_event_id →
    c.timestamp ≤ f.timestamp

instance (st : Store) : Decidable (edgeInvariant st) := by
  unfold edgeInvariant; exact inferInstance

/-- Every stored event's timestamp agrees with the assignment τ of
timestamps to ids (rules out id reuse with a changed timestamp). -/
def storeTsOk (τ : String → Int) (st : Store) : Prop :=
  ∀ e ∈ st.events, e.timestamp = τ e.id

/-- Every stored edge's endpoints are ordered under the assignment τ. -/
def edgesTsOk (τ : String → Int) (st : Store) : Prop :=
  ∀ ed ∈ st.causal_edges, τ ed.cause_event_id ≤ τ ed.effect_event_id

/-! Concrete records used by counterexamples and witnesses. -/

def nmpRaw : RawEvent :=
  ⟨some "c", some 800, some "NodeMemoryPressure", none, none, none, some "n1", none, none⟩

def oomRaw100 : RawEvent :=
  ⟨some "x", some 100, some "OOMKill", none, none, none, some "n1", none, none⟩

def oomRaw1000 : RawEvent :=
  ⟨some "x", some 1000, some "OOMKill", none, none, none, some "n1", none, none⟩

/-- Ingest the OOMKill event x at t = 100, a NodeMemoryPressure event c
at t = 800 on the same node, then replay id x with timestamp 1000. -/
def c9Lines : List Line :=
  [Line.event oomRaw100, Line.event nmpRaw, Line.event oomRaw1000]

def xEv100 : Event := ⟨"x", 100, "OOMKill", "", "", "", "n1", "", "\x7b\x7d"⟩

def cEv800 : Event := ⟨"c", 800, "NodeMemoryPressure", "", "", "", "n1", "", "\x7b\x7d"⟩

/-- The store produced by ingesting c9Lines from an empty store. -/
def c9Store : Store :=
  ⟨[xEv100, cEv800], [], [⟨"c->x", "c", "x", "P001", conf09, "direct"⟩]⟩

def oomEv1000 : Event := ⟨"x", 1000, "OOMKill", "", "", "", "n1", "", "\x7b\x7d"⟩

/-- A store already holding the OOMKill event x and an in-window
NodeMemoryPressure event, with no edges yet. -/
def c10Store : Store := ⟨[oomEv1000, cEv800], [], []⟩

/-- A line that is valid JSON but has no id field. -/
def badRaw : RawEvent := ⟨none, some 5, some "OOMKill", none, none, none, none, none, none⟩

def goodRaw : RawEvent :=
  ⟨some "g1", some 7, some "ContainerTerminated", none, some "p", some "default",
   none, none, none⟩

/-- First half of an event record, present in the file with no
terminating newline when the polling cycle reads it. -/
def c3Head : List Char := "\x7b\"id\": \"e1\"".toList

/-- The remainder of that record, appended later. -/
def c3Rest : List Char := ", \"timestamp\": 5\x7d\n".toList

def oomKillPod : Event := ⟨"x2", 1000, "OOMKill", "", "p", "default", "n1", "", "\x7b\x7d"⟩

def evidenceEv : Event := ⟨"ev", 1010, "OOMKillEvidence", "", "p", "default", "", "", "\x7b\x7d"⟩

def snapA : Snapshot := ⟨"s1", 10, "Pod", "foo", "", "", "\x7b\x7d"⟩

def ctEv : Event := ⟨"g1", 7, "ContainerTerminated", "", "p", "default", "", "", "\x7b\x7d"⟩

/-! Helper lemmas on the store operations. -/

theorem insert_edge_events (st : Store) (ed : CausalEdge) :
    (insert_edge st ed).events = st.events := by
  unfold insert_edge; split <;> rfl

theorem insert_edge_snapshots (st : Store) (ed : CausalEdge) :
    (insert_edge st ed).snapshots = st.snapshots := by
  unfold insert_edge; split <;> rfl

theorem insert_edge_of_has {st : Store} {ed : CausalEdge}
    (h : hasEdgeId st ed.id = true) : insert_edge st ed = st := by
  unfold insert_edge; rw [if_pos h]

theorem hasEdgeId_insert_edge_self (st : Store) (ed : CausalEdge) :
    hasEdgeId (insert_edge st ed) ed.id = true := by
  unfold insert_edge
  split
  · assumption
  · simp [hasEdgeId]

theorem hasEdgeId_insert_edge_mono {st : Store} {i : String} (ed : CausalEdge)
    (h : hasEdgeId st i = true) : hasEdgeId (insert_edge st ed) i = true := by
  unfold insert_edge
  split
  · exact h
  · simp only [hasEdgeId, List.any_append] at h ⊢
    rw [h]; rfl

theorem mem_insert_edge {st : Store} {ed x : CausalEdge}
    (h : x ∈ (insert_edge st ed).causal_edges) : x ∈ st.causal_edges ∨ x = ed := by
  unfold insert_edge at h
  split at h
  · exact Or.inl h
  · simp only [List.mem_append, List.mem_singleton] at h
    exact h

theorem insertEdges_events (l : List Event) (e : Event) (conf : Rat) :
    ∀ st : Store, (insertEdges st l e conf).events = st.events := by
  induction l with
  | nil => intro st; rfl
  | cons c rest ih =>
    intro st
    rw [insertEdges, ih, insert_edge_events]

theorem insertEdges_snapshots (l : List Event) (e : Event) (conf : Rat) :
    ∀ st : Store, (insertEdges st l e conf).snapshots = st.snapshots := by
  induction l with
  | nil => intro st; rfl
  | cons c rest ih =>
    intro st
    rw [insertEdges, ih, insert_edge_snapshots]

theorem hasEdgeId_insertEdges_mono (l : List Event) (e : Event) (conf : Rat) :
    ∀ {st : Store} {i : String}, hasEdgeId st i = true →
      hasEdgeId (insertEdges st l e conf) i = true := by
  induction l with
  | nil => intro st i h; exact h
  | cons c rest ih =>
    intro st i h
    rw [insertEdges]
    exact ih (hasEdgeId_insert_edge_mono _ h)

theorem hasEdgeId_insertEdges_self (l : List Event) (e : Event) (conf : Rat) :
    ∀ (st : Store), ∀ c ∈ l, hasEdgeId (insertEdges st l e conf) (edgeId c e) = true := by
  induction l with
  | nil => intro st c hc; cases hc
  | cons a rest ih =>
    intro st c hc
    rw [insertEdges]
    rcases List.mem_cons.mp hc with hca | hcr
    · subst hca
      exact hasEdgeId_insertEdges_mono rest e conf (hasEdgeId_insert_edge_self st (mkEdge c e conf))
    · exact ih _ c hcr

theorem insertEdges_of_all_has (l : List Event) (e : Event) (conf : Rat) :
    ∀ {st : Store}, (∀ c ∈ l, hasEdgeId st (edgeId c e) = true) →
      insertEdges st l e conf = st := by
  induction l with
  | nil => intro st _; rfl
  | cons a rest ih =>
    intro st h
    rw [insertEdges, insert_edge_of_has (h a (List.mem_cons_self a rest)),
      ih (fun c hc => h c (List.mem_cons_of_mem a hc))]

theorem mem_insertEdges (l : List Event) (e : Event) (conf : Rat) :
    ∀ {st : Store} {x : CausalEdge}, x ∈ (insertEdges st l e conf).causal_edges →
      x ∈ st.causal_edges ∨ ∃ c ∈ l, x = mkEdge c e conf := by
  induction l with
  | nil => intro st x h; exact Or.inl h
  | cons a rest ih =>
    intro st x h
    rw [insertEdges] at h
    rcases ih h with h1 | ⟨c, hc, hx⟩
    · rcases mem_insert_edge h1 with h2 | h2
      · exact Or.inl h2
      · exact Or.inr ⟨a, List.mem_cons_self a rest, h2⟩
    · exact Or.inr ⟨c, List.mem_cons_of_mem a hc, hx⟩

theorem insert_event_of_has {st : Store} {e : Event}
    (h : hasEventId st e.id = true) : insert_event st e = st := by
  unfold insert_event; rw [if_pos h]

theorem hasEventId_insert_event_self (st : Store) (e : Event) :
    hasEventId (insert_event st e) e.id = true := by
  unfold insert_event
  split
  · assumption
  · simp [hasEventId]

theorem insert_event_causal_edges (st : Store) (e : Event) :
    (insert_event st e).causal_edges = st.causal_edges := by
  unfold insert_event; split <;> rfl

theorem insert_event_snapshots (st : Store) (e : Event) :
    (insert_event st e).snapshots = st.snapshots := by
  unfold insert_event; split <;> rfl

theorem mem_insert_event {st : Store} {e x : Event}
    (h : x ∈ (insert_event st e).events) : x ∈ st.events ∨ x = e := by
  unfold insert_event at h
  split at h
  · exact Or.inl h
  · simp only [List.mem_append, List.mem_singleton] at h
    exact h

theorem insert_snapshot_of_has {st : Store} {s : Snapshot}
    (h : hasSnapshotId st s.id = true) : insert_snapshot st s = st := by
  unfold insert_snapshot; rw [if_pos h]

theorem hasSnapshotId_insert_snapshot_self (st : Store) (s : Snapshot) :
    hasSnapshotId (insert_snapshot st s) s.id = true := by
  unfold insert_snapshot
  split
  · assumption
  · simp [hasSnapshotId]

theorem build_edges_mp_events (st : Store) (e : Event) :
    (build_edges_mp st e).events = st.events := by
  unfold build_edges_mp
  split
  · exact insertEdges_events _ _ _ _
  · rfl

theorem build_edges_mp_snapshots (st : Store) (e : Event) :
    (build_edges_mp st e).snapshots = st.snapshots := by
  unfold build_edges_mp
  split
  · exact insertEdges_snapshots _ _ _ _
  · rfl

theorem build_edges_events (st : Store) (e : Event) :
    (build_edges st e).events = st.events := by
  unfold build_edges
  split
  · split
    · rw [insert_edge_events, build_edges_mp_events]
    · rw [build_edges_mp_events]
  · rw [build_edges_mp_events]

theorem build_edges_snapshots (st : Store) (e : Event) :
    (build_edges st e).snapshots = st.snapshots := by
  unfold build_edges
  split
  · split
    · rw [insert_edge_snapshots, build_edges_mp_snapshots]
    · rw [build_edges_mp_snapshots]
  · rw [build_edges_mp_snapshots]

/-! Case characterizations of the linker by trigger type. -/

theorem build_edges_oomkill {st : Store} {e : Event} (h : e.event_type = "OOMKill") :
    build_edges st e = insertEdges st (memCauses st.events e) e conf09 := by
  unfold build_edges build_edges_mp
  simp [h]

theorem build_edges_oomevidence {st : Store} {e : Event}
    (h : e.event_type = "OOMKillEvidence") :
    build_edges st e = (match oomCause st.events e with
      | some c => insert_edge st (mkEdge c e conf10)
      | none => st) := by
  unfold build_edges build_edges_mp
  simp [h]

theorem build_edges_other {st : Store} {e : Event}
    (h1 : e.event_type ≠ "OOMKill") (h2 : e.event_type ≠ "OOMKillEvidence") :
    build_edges st e = st := by
  unfold build_edges build_edges_mp
  simp [h1, h2]

/-- Re-running the linker on the same trigger against an unchanged events
table adds nothing: all derived edge ids are already present. -/
theorem build_edges_build_edges (st : Store) (e : Event) :
    build_edges (build_edges st e) e = build_edges st e := by
  by_cases h1 : e.event_type = "OOMKill"
  · have hb : build_edges st e = insertEdges st (memCauses st.events e) e conf09 :=
      build_edges_oomkill h1
    rw [hb, @build_edges_oomkill (insertEdges st (memCauses st.events e) e conf09) e h1,
      insertEdges_events]
    exact insertEdges_of_all_has _ _ _
      (fun c hc => hasEdgeId_insertEdges_self _ _ _ _ c hc)
  · by_cases h2 : e.event_type = "OOMKillEvidence"
    · have hb := @build_edges_oomevidence st e h2
      cases ho : oomCause st.events e with
      | none =>
        rw [ho] at hb
        rw [hb]; exact hb
      | some c =>
        rw [ho] at hb
        rw [hb, @build_edges_oomevidence (insert_edge st (mkEdge c e conf10)) e h2,
          insert_edge_events, ho]
        exact insert_edge_of_has (hasEdgeId_insert_edge_self st (mkEdge c e conf10))
    · rw [build_edges_other h1 h2, build_edges_other h1 h2]

theorem hasEventId_eq_of_events {st st' : Store} (h : st'.events = st.events)
    (i : String) : hasEventId st' i = hasEventId st i := by
  unfold hasEventId; rw [h]

/-! Facts about the rule SELECTs. -/

theorem mpPred_iff {e c : Event} : mpPred e c = true ↔
    (c.event_type = "NodeMemoryPressure" ∧ c.node_name = e.node_name ∧
     c.timestamp ≤ e.timestamp ∧ e.timestamp - 300 ≤ c.timestamp) := by
  simp [mpPred, and_assoc]

theorem oomPred_iff {e c : Event} : oomPred e c = true ↔
    (c.event_type = "OOMKill" ∧ c.pod_name = e.pod_name ∧
     c.«namespace» = e.«namespace» ∧
     c.timestamp ≤ e.timestamp ∧ e.timestamp - 90 ≤ c.timestamp) := by
  simp [oomPred, and_assoc]

theorem memCauses_mem {evs : List Event} {e c : Event} (h : c ∈ memCauses evs e) :
    c ∈ evs ∧ mpPred e c = true := by
  unfold memCauses at h
  have h1 := List.take_subset 3 _ h
  have h2 := mem_sortDescBy.mp h1
  exact ⟨(List.mem_filter.mp h2).1, (List.mem_filter.mp h2).2⟩

theorem memCauses_length {evs : List Event} {e : Event} :
    (memCauses evs e).length ≤ 3 :=
  List.length_take_le 3 _

theorem memCauses_most_recent {evs : List Event} {e c d : Event}
    (hc : c ∈ memCauses evs e) (hd : d ∈ evs) (hpd : mpPred e d = true)
    (hnd : d ∉ memCauses evs e) : d.timestamp ≤ c.timestamp := by
  have hds : d ∈ sortDescBy (fun c => c.timestamp) (evs.filter (mpPred e)) :=
    mem_sortDescBy.mpr (List.mem_filter.mpr ⟨hd, hpd⟩)
  rw [← List.take_append_drop 3 (sortDescBy (fun c => c.timestamp) (evs.filter (mpPred e)))]
    at hds
  rcases List.mem_append.mp hds with h1 | h1
  · exact absurd h1 hnd
  · exact sortDescBy_take_max c hc d h1

theorem oomCause_some {evs : List Event} {e c : Event} (h : oomCause evs e = some c) :
    c ∈ evs ∧ oomPred e c = true ∧
    ∀ d ∈ evs, oomPred e d = true → d.timestamp ≤ c.timestamp := by
  unfold oomCause at h
  obtain ⟨hm, hmax⟩ := sortDescBy_head_max h
  exact ⟨(List.mem_filter.mp hm).1, (List.mem_filter.mp hm).2,
    fun d hd hpd => hmax d (List.mem_filter.mpr ⟨hd, hpd⟩)⟩

theorem oomCause_none {evs : List Event} {e : Event} (h : oomCause evs e = none) :
    ∀ d ∈ evs, oomPred e d = false := by
  unfold oomCause at h
  have hnil := sortDescBy_head_none.mp h
  intro d hd
  cases hb : oomPred e d with
  | false => rfl
  | true => exact absurd hb (List.filter_eq_nil_iff.mp hnil d hd)

/-! Claim theorems. -/

/-- Claim C1: ingesting the same event or snapshot record twice in
immediate succession leaves the events, snapshots and causal_edges tables
in the same observable state as ingesting it once, and the duplicate id
never surfaces as an error: the pipeline step succeeds both times with
the same resulting store. -/
theorem c1_idempotent_replay (st : Store) (e : Event) (s : Snapshot) :
    ingestEventRecord (ingestEventRecord st e) e = ingestEventRecord st e ∧
    insert_snapshot (insert_snapshot st s) s = insert_snapshot st s ∧
    processLine st (Line.event (rawOf e)) = .ok (ingestEventRecord st e, true) ∧
    processLine (ingestEventRecord st e) (Line.event (rawOf e)) =
      .ok (ingestEventRecord st e, true) := by
  have h1 : ingestEventRecord (ingestEventRecord st e) e = ingestEventRecord st e := by
    unfold ingestEventRecord
    have hid : hasEventId (build_edges (insert_event st e) e) e.id = true := by
      rw [hasEventId_eq_of_events (build_edges_events _ _)]
      exact hasEventId_insert_event_self st e
    rw [insert_event_of_has hid]
    exact build_edges_build_edges (insert_event st e) e
  have h3 : processLine st (Line.event (rawOf e)) = .ok (ingestEventRecord st e, true) := rfl
  have h4 : processLine (ingestEventRecord st e) (Line.event (rawOf e)) =
      .ok (ingestEventRecord (ingestEventRecord st e) e, true) := rfl
  rw [h1] at h4
  exact ⟨h1, insert_snapshot_of_has (hasSnapshotId_insert_snapshot_self st s), h3, h4⟩

/-- Claim C2: an OOMKill trigger links, with pattern P001, confidence 0.9
and edge type direct, exactly the at-most-3 most recent NodeMemoryPressure
events on the same node within the 300-unit window ending at the trigger
timestamp; events outside the window or on another node are never
linked, and the selected causes dominate every unselected in-window
candidate by timestamp. -/
theorem c2_memory_pressure_rule (st : Store) (e : Event)
    (h : e.event_type = "OOMKill") :
    (memCauses st.events e).length ≤ 3 ∧
    (∀ c ∈ memCauses st.events e,
       c ∈ st.events ∧ c.event_type = "NodeMemoryPressure" ∧
       c.node_name = e.node_name ∧ c.timestamp ≤ e.timestamp ∧
       e.timestamp - 300 ≤ c.timestamp ∧
       hasEdgeId (build_edges st e) (edgeId c e) = true) ∧
    (∀ ed ∈ (build_edges st e).causal_edges, ed ∈ st.causal_edges ∨
       ∃ c ∈ memCauses st.events e,
         ed = mkEdge c e conf09 ∧ ed.cause_event_id = c.id ∧
         ed.effect_event_id = e.id ∧ ed.pattern_id = "P001" ∧
         ed.confidence = conf09 ∧ ed.edge_type = "direct") ∧
    (∀ c d : Event, c ∈ memCauses st.events e → d ∈ st.events →
       mpPred e d = true → d ∉ memCauses st.events e →
       d.timestamp ≤ c.timestamp) := by
  refine ⟨memCauses_length, fun c hc => ?_, fun ed hed => ?_, fun c d hc hd hpd hnd =>
    memCauses_most_recent hc hd hpd hnd⟩
  · obtain ⟨hmem, hpred⟩ := memCauses_mem hc
    obtain ⟨ht, hn, h1, h2⟩ := mpPred_iff.mp hpred
    refine ⟨hmem, ht, hn, h1, h2, ?_⟩
    rw [build_edges_oomkill h]
    exact hasEdgeId_insertEdges_self _ _ _ _ c hc
  · rw [build_edges_oomkill h] at hed
    rcases mem_insertEdges _ _ _ hed with h1 | ⟨c, hc, hx⟩
    · exact Or.inl h1
    · subst hx
      exact Or.inr ⟨c, hc, rfl, rfl, rfl, rfl, rfl, rfl⟩

/-- Witness for C2 at a concrete store: the in-window NodeMemoryPressure
event on the trigger's node is selected and linked. -/
theorem c2_memory_pressure_rule_witness :
    cEv800 ∈ memCauses c10Store.events oomEv1000 ∧
    cEv800.timestamp ≤ oomEv1000.timestamp ∧
    hasEdgeId (build_edges c10Store oomEv1000) (edgeId cEv800 oomEv1000) = true := by
  have h := (c2_memory_pressure_rule c10Store oomEv1000 rfl).2.1 cEv800 (by decide)
  exact ⟨by decide, h.2.2.2.1, h.2.2.2.2.2⟩

/-- Claim C7: an OOMKillEvidence trigger creates at most one edge, whose
cause is the single most recent OOMKill event with the same pod and
namespace in the 90-unit window, with pattern P001, confidence 1.0 and
edge type direct; with no qualifying cause, no edge is produced and the
store is unchanged (ingestion of the trigger still succeeds). -/
theorem c7_oom_evidence_rule (st : Store) (e : Event)
    (h : e.event_type = "OOMKillEvidence") :
    (oomCause st.events e = none → build_edges st e = st) ∧
    (∀ c, oomCause st.events e = some c →
       build_edges st e = insert_edge st (mkEdge c e conf10) ∧
       c ∈ st.events ∧ c.event_type = "OOMKill" ∧ c.pod_name = e.pod_name ∧
       c.«namespace» = e.«namespace» ∧ c.timestamp ≤ e.timestamp ∧
       e.timestamp - 90 ≤ c.timestamp ∧
       (∀ d ∈ st.events, oomPred e d = true → d.timestamp ≤ c.timestamp)) ∧
    (build_edges st e).causal_edges.length ≤ st.causal_edges.length + 1 := by
  have hb := @build_edges_oomevidence st e h
  refine ⟨fun hn => ?_, fun c hs => ?_, ?_⟩
  · rw [hn] at hb; exact hb
  · rw [hs] at hb
    obtain ⟨hmem, hpred, hmax⟩ := oomCause_some hs
    obtain ⟨ht, hp, hns, h1, h2⟩ := oomPred_iff.mp hpred
    exact ⟨hb, hmem, ht, hp, hns, h1, h2, hmax⟩
  · cases ho : oomCause st.events e with
    | none =>
      rw [ho] at hb; rw [hb]
      show st.causal_edges.length ≤ st.causal_edges.length + 1
      omega
    | some c =>
      rw [ho] at hb; rw [hb]
      show (insert_edge st (mkEdge c e conf10)).causal_edges.length ≤
        st.causal_edges.length + 1
      unfold insert_edge
      split
      · omega
      · simp

/-- Witness for C7 at a concrete store: the single in-window OOMKill
event on the same pod and namespace is taken as the cause. -/
theorem c7_oom_evidence_rule_witness :
    build_edges ⟨[oomKillPod], [], []⟩ evidenceEv =
      insert_edge ⟨[oomKillPod], [], []⟩ (mkEdge oomKillPod evidenceEv conf10) ∧
    oomKillPod.timestamp ≤ evidenceEv.timestamp := by
  have h := (c7_oom_evidence_rule ⟨[oomKillPod], [], []⟩ evidenceEv rfl).2.1
    oomKillPod (by decide)
  exact ⟨h.1, h.2.2.2.2.2.1⟩

theorem snapMatches_iff {kind name ns : String} {T : Int} {s : Snapshot} :
    snapMatches kind name ns T s = true ↔
    (s.object_kind = kind ∧ s.object_name = name ∧
     (s.«namespace» = ns ∨ s.«namespace» = "") ∧ s.timestamp ≤ T) := by
  simp [snapMatches, and_assoc]

theorem anchorPred_iff {pod ns : String} {e : Event} :
    anchorPred pod ns e = true ↔
    (e.pod_name = pod ∧ e.«namespace» = ns ∧
     (e.event_type = "OOMKill" ∨ e.event_type = "CrashLoopBackOff" ∨
      e.event_type = "ContainerTerminated")) := by
  simp [anchorPred, and_assoc, or_assoc]

/-- Claim C6: Q3 returns the single most recent snapshot matching the
object, namespace (with the empty snapshot namespace as a wildcard) and
time bound; when no snapshot matches it reports a defined not-found
result (none), not a failure. -/
theorem c6_state_at_time (snaps : List Snapshot) (kind name ns : String) (T : Int) :
    (query_state_at snaps kind name ns T = none ↔
       ∀ s ∈ snaps, snapMatches kind name ns T s = false) ∧
    (∀ s, query_state_at snaps kind name ns T = some s →
       s ∈ snaps ∧ s.object_kind = kind ∧ s.object_name = name ∧
       (s.«namespace» = ns ∨ s.«namespace» = "") ∧ s.timestamp ≤ T ∧
       ∀ s' ∈ snaps, snapMatches kind name ns T s' = true →
         s'.timestamp ≤ s.timestamp) := by
  constructor
  · constructor
    · intro h s hs
      unfold query_state_at at h
      have hnil := sortDescBy_head_none.mp h
      cases hb : snapMatches kind name ns T s with
      | false => rfl
      | true => exact absurd hb (List.filter_eq_nil_iff.mp hnil s hs)
    · intro h
      unfold query_state_at
      rw [sortDescBy_head_none, List.filter_eq_nil_iff]
      intro s hs
      rw [h s hs]
      simp
  · intro s hsome
    unfold query_state_at at hsome
    obtain ⟨hm, hmax⟩ := sortDescBy_head_max hsome
    have hf := List.mem_filter.mp hm
    obtain ⟨hk, hn, hns, ht⟩ := snapMatches_iff.mp hf.2
    exact ⟨hf.1, hk, hn, hns, ht,
      fun s' hs' hm' => hmax s' (List.mem_filter.mpr ⟨hs', hm'⟩)⟩

/-- Witness for C6 at a concrete store: a snapshot with empty namespace
is returned for a query against the namespace default. -/
theorem c6_state_at_time_witness :
    query_state_at [snapA] "Pod" "foo" "default" 15 = some snapA ∧
    (snapA.«namespace» = "default" ∨ snapA.«namespace» = "") ∧
    snapA.timestamp ≤ 15 := by
  have h := (c6_state_at_time [snapA] "Pod" "foo" "default" 15).2 snapA (by decide)
  exact ⟨by decide, h.2.2.2.1, h.2.2.2.2.1⟩

/-- Claim C8: with no explicit event id, the Q1 anchor is the most recent
event for the pod whose type is OOMKill, CrashLoopBackOff or
ContainerTerminated; with no such event the query reports a defined
"no events found" result (none), not an error. -/
theorem c8_anchor_resolution (events : List Event) (pod ns : String) :
    (query_causal_chain_anchor events pod ns = none ↔
       ∀ e ∈ events, anchorPred pod ns e = false) ∧
    (∀ a, query_causal_chain_anchor events pod ns = some a →
       a ∈ events ∧ a.pod_name = pod ∧ a.«namespace» = ns ∧
       (a.event_type = "OOMKill" ∨ a.event_type = "CrashLoopBackOff" ∨
        a.event_type = "ContainerTerminated") ∧
       ∀ e ∈ events, anchorPred pod ns e = true → e.timestamp ≤ a.timestamp) := by
  constructor
  · constructor
    · intro h e he
      unfold query_causal_chain_anchor at h
      have hnil := sortDescBy_head_none.mp h
      cases hb : anchorPred pod ns e with
      | false => rfl
      | true => exact absurd hb (List.filter_eq_nil_iff.mp hnil e he)
    · intro h
      unfold query_causal_chain_anchor
      rw [sortDescBy_head_none, List.filter_eq_nil_iff]
      intro e he
      rw [h e he]
      simp
  · intro a hsome
    unfold query_causal_chain_anchor at hsome
    obtain ⟨hm, hmax⟩ := sortDescBy_head_max hsome
    have hf := List.mem_filter.mp hm
    obtain ⟨hp, hns, ht⟩ := anchorPred_iff.mp hf.2
    exact ⟨hf.1, hp, hns, ht,
      fun e he hm' => hmax e (List.mem_filter.mpr ⟨he, hm'⟩)⟩

/-- Witness for C8 at a concrete store: the single significant event for
the pod is resolved as the anchor. -/
theorem c8_anchor_resolution_witness :
    query_causal_chain_anchor [ctEv] "p" "default" = some ctEv ∧
    ctEv.pod_name = "p" ∧
    (ctEv.event_type = "OOMKill" ∨ ctEv.event_type = "CrashLoopBackOff" ∨
     ctEv.event_type = "ContainerTerminated") := by
  have h := (c8_anchor_resolution [ctEv] "p" "default").2 ctEv (by decide)
  exact ⟨by decide, h.2.1, h.2.2.2.1⟩

/-! The chain-walk depth bound. -/

theorem chainDepth_map_node_le (w : ChainRow → List ChainNode) (k : Nat)
    (hw : ∀ r : ChainRow, chainDepth (w r) ≤ k) :
    ∀ l : List ChainRow,
      chainDepth (l.map (fun r =>
        ChainNode.node r.event r.confidence r.edge_type (w r))) ≤ k + 1 := by
  intro l
  induction l with
  | nil => simp [chainDepth]
  | cons r rest ihl =>
    rw [List.map_cons, chainDepth]
    exact max_le (by have := hw r; omega) (le_trans ihl (by omega))

theorem walk_chain_depth_le (st : Store) :
    ∀ (k d m : Nat) (e : Event), m - d ≤ k →
      chainDepth (walk_chain st e d m) ≤ k := by
  intro k
  induction k with
  | zero =>
    intro d m e h
    unfold walk_chain
    rw [dif_pos (by omega)]
    simp [chainDepth]
  | succ k ih =>
    intro d m e h
    unfold walk_chain
    by_cases hdm : d ≥ m
    · rw [dif_pos hdm]
      simp [chainDepth]
    · rw [dif_neg hdm]
      exact chainDepth_map_node_le _ k (fun r => ih (d + 1) m r.event (by omega)) _

/-- Claim C5: for every edge-store content, including cyclic graphs, the
causal-chain walk is total, fetches no causes at depth 5, and the
returned tree nests at most 5 levels of causes below the anchor. -/
theorem c5_chain_depth_bound (st : Store) (e : Event) :
    walk_chain st e 5 5 = [] ∧ chainDepth (walk_chain st e 0 5) ≤ 5 := by
  constructor
  · unfold walk_chain
    rw [dif_pos (by omega)]
  · exact walk_chain_depth_le st 5 0 5 e (by omega)

/-- Claim C3 (code bug): in tail mode a trailing partial record is not
left unconsumed: the read returns the partial line and the tracked
offset advances to end of file, so the remainder appended later is read
alone and the full record is never presented whole to the parser. -/
theorem c3_partial_record_consumed :
    (watch_cycle_read c3Head 0).2 = c3Head.length ∧
    (watch_cycle_read c3Head 0).1 = [c3Head] ∧
    c3Head.getLast? ≠ some '\n' ∧
    (watch_cycle_read (c3Head ++ c3Rest) c3Head.length).1 = [c3Rest] ∧
    readlines (c3Head ++ c3Rest) = [c3Head ++ c3Rest] :=
  ⟨rfl, by decide, by decide, by decide, by decide⟩

/-- Claim C4 (code bug): a line that is valid JSON but lacks the required
id field raises an uncaught KeyError and aborts the whole batch before
later lines are processed, while a line that fails JSON parsing is
skipped and the batch continues. -/
theorem c4_missing_field_aborts :
    ingest_events emptyStore [Line.event badRaw, Line.event goodRaw] = .error () ∧
    ingest_events emptyStore [Line.malformed, Line.event goodRaw] =
      .ok (⟨[toEvent "g1" 7 "ContainerTerminated" goodRaw], [], []⟩, 1) :=
  ⟨rfl, rfl⟩

/-- Claim C10: ingesting a record whose event id already exists is a
no-op on the events table but still runs the causal linker against the
current store, which can create new edges (shown at a concrete store
holding a qualifying cause ingested after the event's first
ingestion). -/
theorem c10_replay_reruns_linker (st : Store) (e : Event)
    (h : hasEventId st e.id = true) :
    ingestEventRecord st e = build_edges st e ∧
    (ingestEventRecord st e).events = st.events ∧
    hasEventId c10Store oomEv1000.id = true ∧
    (ingestEventRecord c10Store oomEv1000).causal_edges ≠ c10Store.causal_edges := by
  refine ⟨?_, ?_, by decide, by decide⟩
  · unfold ingestEventRecord
    rw [insert_event_of_has h]
  · unfold ingestEventRecord
    rw [insert_event_of_has h, build_edges_events]

/-- Witness for C10 at the concrete replay store. -/
theorem c10_replay_reruns_linker_witness :
    ingestEventRecord c10Store oomEv1000 = build_edges c10Store oomEv1000 ∧
    (ingestEventRecord c10Store oomEv1000).events = c10Store.events := by
  have h := c10_replay_reruns_linker c10Store oomEv1000 (by decide)
  exact ⟨h.1, h.2.1⟩

/-! Provenance of edges through one linker run, and preservation of the
timestamp-assignment invariants through ingestion. -/

theorem mem_build_edges {st : Store} {e : Event} {ed : CausalEdge}
    (h : ed ∈ (build_edges st e).causal_edges) :
    ed ∈ st.causal_edges ∨
    ∃ c, c ∈ st.events ∧ c.timestamp ≤ e.timestamp ∧
      ed.cause_event_id = c.id ∧ ed.effect_event_id = e.id := by
  by_cases h1 : e.event_type = "OOMKill"
  · rw [build_edges_oomkill h1] at h
    rcases mem_insertEdges _ _ _ h with hmem | ⟨c, hc, hx⟩
    · exact Or.inl hmem
    · obtain ⟨hcm, hcp⟩ := memCauses_mem hc
      subst hx
      exact Or.inr ⟨c, hcm, (mpPred_iff.mp hcp).2.2.1, rfl, rfl⟩
  · by_cases h2 : e.event_type = "OOMKillEvidence"
    · have hb := @build_edges_oomevidence st e h2
      cases ho : oomCause st.events e with
      | none =>
        rw [ho] at hb; rw [hb] at h
        exact Or.inl h
      | some c =>
        rw [ho] at hb; rw [hb] at h
        rcases mem_insert_edge h with hmem | hx
        · exact Or.inl hmem
        · obtain ⟨hcm, hcp, -⟩ := oomCause_some ho
          subst hx
          exact Or.inr ⟨c, hcm, (oomPred_iff.mp hcp).2.2.2.1, rfl, rfl⟩
    · rw [build_edges_other h1 h2] at h
      exact Or.inl h

theorem processLine_inv {τ : String → Int} {st st' : Store} {l : Line} {b : Bool}
    (hok : processLine st l = .ok (st', b))
    (hl : ∀ r i t, l = Line.event r → r.id = some i → r.timestamp = some t → t = τ i)
    (hts : storeTsOk τ st) (hed : edgesTsOk τ st) :
    storeTsOk τ st' ∧ edgesTsOk τ st' := by
  cases l with
  | blank =>
    simp only [processLine, Except.ok.injEq, Prod.mk.injEq] at hok
    rw [← hok.1]; exact ⟨hts, hed⟩
  | malformed =>
    simp only [processLine, Except.ok.injEq, Prod.mk.injEq] at hok
    rw [← hok.1]; exact ⟨hts, hed⟩
  | event r =>
    obtain ⟨oi, ot, oty, a4, a5, a6, a7, a8, a9⟩ := r
    cases oi with
    | none => simp [processLine, insert_event_raw] at hok
    | some i =>
    cases ot with
    | none => simp [processLine, insert_event_raw] at hok
    | some t =>
    cases oty with
    | none => simp [processLine, insert_event_raw] at hok
    | some ty =>
    simp only [processLine, insert_event_raw, Except.ok.injEq, Prod.mk.injEq] at hok
    have ht : t = τ i := hl ⟨some i, some t, some ty, a4, a5, a6, a7, a8, a9⟩ i t rfl rfl rfl
    obtain ⟨h1, -⟩ := hok
    rw [← h1]
    set e : Event := toEvent i t ty ⟨some i, some t, some ty, a4, a5, a6, a7, a8, a9⟩ with he
    have hets : e.timestamp = τ e.id := ht
    have hts1 : storeTsOk τ (insert_event st e) := by
      intro x hx
      rcases mem_insert_event hx with hx1 | hx1
      · exact hts x hx1
      · rw [hx1]; exact hets
    constructor
    · intro x hx
      rw [build_edges_events] at hx
      exact hts1 x hx
    · intro ed hmem
      rcases mem_build_edges hmem with hmem1 | ⟨c, hc, hct, hcau, heff⟩
      · rw [insert_event_causal_edges] at hmem1
        exact hed ed hmem1
      · rw [hcau, heff]
        have hcts : c.timestamp = τ c.id := hts1 c hc
        rw [← hcts, ← hets]
        exact hct

theorem ingest_events_inv {τ : String → Int} :
    ∀ (lines : List Line) (st : Store),
      (∀ r i t, Line.event r ∈ lines → r.id = some i → r.timestamp = some t → t = τ i) →
      storeTsOk τ st → edgesTsOk τ st →
      ∀ {st' : Store} {n : Nat}, ingest_events st lines = .ok (st', n) →
        storeTsOk τ st' ∧ edgesTsOk τ st' := by
  intro lines
  induction lines with
  | nil =>
    intro st hl hts hed st' n hok
    simp only [ingest_events, Except.ok.injEq, Prod.mk.injEq] at hok
    rw [← hok.1]
    exact ⟨hts, hed⟩
  | cons l rest ih =>
    intro st hl hts hed st' n hok
    unfold ingest_events at hok
    split at hok
    · cases hok
    · next st1 b hpl =>
      split at hok
      · cases hok
      · next st2 m hing =>
        simp only [Except.ok.injEq, Prod.mk.injEq] at hok
        rw [← hok.1]
        have hinv1 := processLine_inv hpl
          (fun r i t hr => hl r i t (by rw [← hr]; exact List.mem_cons_self l rest))
          hts hed
        exact ih st1 (fun r i t hm => hl r i t (List.mem_cons_of_mem l hm))
          hinv1.1 hinv1.2 hing

/-- Counterexample to C9 as stated: replaying an existing id with a
larger timestamp makes the linker compare causes against the new
timestamp while the stored effect keeps the old one, reaching a store
whose edge has cause timestamp 800 and effect timestamp 100. -/
theorem c9_edge_direction_counterexample :
    ingest_events emptyStore c9Lines = .ok (c9Store, 3) ∧
    ¬ edgeInvariant c9Store :=
  ⟨rfl, by decide⟩

/-- Claim C9, amended: every created edge satisfies cause timestamp at
most effect timestamp provided ingested event records never reuse an id
with a different timestamp, i.e. record timestamps agree with one
assignment of timestamps to ids. -/
theorem c9_edge_direction_amended (τ : String → Int) (lines : List Line)
    (st : Store) (n : Nat)
    (hτ : ∀ r i t, Line.event r ∈ lines → r.id = some i → r.timestamp = some t → t = τ i)
    (hok : ingest_events emptyStore lines = .ok (st, n)) :
    edgeInvariant st := by
  obtain ⟨hts, hed⟩ := ingest_events_inv lines emptyStore hτ
    (fun e he => absurd he (List.not_mem_nil e))
    (fun ed hm => absurd hm (List.not_mem_nil ed)) hok
  intro ed hmem c hc f hf hcid hfid
  rw [hts c hc, hts f hf, hcid, hfid]
  exact hed ed hmem

/-- Witness for the amended C9 on a concrete one-record ingestion. -/
theorem c9_edge_direction_amended_witness :
    edgeInvariant ⟨[toEvent "g1" 7 "ContainerTerminated" goodRaw], [], []⟩ := by
  refine c9_edge_direction_amended (fun _ => 7) [Line.event goodRaw] _ 1 ?_ rfl
  intro r i t hm hid ht
  have hrg : r = goodRaw := by
    have := List.mem_singleton.mp hm
    injection this
  subst hrg
  have h77 : some (7 : Int) = some t := ht
  injection h77 with h7
  exact h7.symm

end KCM
